import Mathlib

set_option maxRecDepth 40000

/-!
Shallow embedding of the key-rotation and quota-enforcement core of the
`tryon` service, together with proofs of the specified properties.

Sources embedded:
* `src/lib/apiKeyRotator.js` — `getNextApiKey`, `resetDailyCounts`
* `src/middleware/apiAuth.js` — `apiAuthMiddleware` (quota gate + usage logging)
* `src/routes/apiKeys.js` — product API key creation / listing / revocation
* `src/utils/crypto.js` — `hashApiKey` (SHA-256, hex digest)
* database schema (Prisma migration) — record shapes and column defaults

Timestamps are modelled as natural numbers (milliseconds); database rows as
Lean structures; tables as lists of rows.  Each Prisma interactive
transaction is modelled as one atomic step on the table state, so an
interleaving of concurrent transactions is a sequence of such steps.
-/

namespace VTryOn

/-! ## Credential store: `GeminiApiKey` rows

Mirrors the `GeminiApiKey` table of the Prisma schema: an id (primary key),
the key string, a cumulative request count, a rate-limited flag and
timestamps.  Column defaults on creation are `requestCount = 0`,
`isRateLimited = false`, `lastUsedAt = createdAt = CURRENT_TIMESTAMP`. -/
structure GeminiApiKey where
  id : Nat
  key : String
  requestCount : Nat
  isRateLimited : Bool
  lastUsedAt : Nat
  createdAt : Nat
  deriving Repr, DecidableEq

/-- `MAX_REQUESTS` from `getNextApiKey` in `src/lib/apiKeyRotator.js`. -/
def MAX_REQUESTS : Nat := 249

/-- The `where` filter of the `findFirst` in `getNextApiKey`:
`isRateLimited: false` and `requestCount < MAX_REQUESTS`. -/
def eligibleKey (k : GeminiApiKey) : Bool :=
  !k.isRateLimited && k.requestCount < MAX_REQUESTS

/-- `orderBy lastUsedAt asc` + `findFirst`: the element with the least
`lastUsedAt` (first such element under a stable order). -/
def minByLastUsedAt : List GeminiApiKey → Option GeminiApiKey
  | [] => none
  | k :: ks =>
    match minByLastUsedAt ks with
    | none => some k
    | some b => if k.lastUsedAt ≤ b.lastUsedAt then some k else some b

/-- Step 1 of `getNextApiKey`: `findFirst` over eligible keys ordered by
`lastUsedAt` ascending. -/
def selectNextKey (pool : List GeminiApiKey) : Option GeminiApiKey :=
  minByLastUsedAt (pool.filter eligibleKey)

/-- The error thrown by `getNextApiKey` when no key is eligible
(the `PoolExhausted` condition). -/
def poolExhaustedMsg : String := "All Gemini API keys are currently rate-limited."

/-- The `tx.geminiApiKey.update` of step 2 of `getNextApiKey`, applied to the
whole table: the row whose `id` matches gets `requestCount := newCount`,
`isRateLimited := (newCount ≥ MAX_REQUESTS)`, `lastUsedAt := now`. -/
def updateChosenKey (nk : GeminiApiKey) (now : Nat) (pool : List GeminiApiKey) :
    List GeminiApiKey :=
  pool.map fun k =>
    if k.id = nk.id then
      { k with requestCount := nk.requestCount + 1,
               isRateLimited := decide (MAX_REQUESTS ≤ nk.requestCount + 1),
               lastUsedAt := now }
    else k

/-- `getNextApiKey` from `src/lib/apiKeyRotator.js`: one atomic transaction
that selects the least-recently-used eligible key, increments its count,
sets the rate-limited flag when the new count reaches `MAX_REQUESTS`, stamps
`lastUsedAt`, and returns the key string; throws when no key is eligible. -/
def getNextApiKey (now : Nat) (pool : List GeminiApiKey) :
    Except String (String × List GeminiApiKey) :=
  match selectNextKey pool with
  | none => .error poolExhaustedMsg
  | some nextKey => .ok (nextKey.key, updateChosenKey nextKey now pool)

/-- `resetDailyCounts`'s `updateMany`: every row gets `requestCount := 0`
and `isRateLimited := false` in one bulk operation. -/
def resetDailyCounts (pool : List GeminiApiKey) : List GeminiApiKey :=
  pool.map fun k => { k with requestCount := 0, isRateLimited := false }

/-- The `try/catch` wrapper of `resetDailyCounts`: `dbFailure` models a
database error thrown by the bulk update.  On failure the error is caught
and logged (second component) and the table is left unchanged; the function
is total — it never rethrows. -/
def resetDailyCountsRun (dbFailure : Option String) (pool : List GeminiApiKey) :
    List GeminiApiKey × Option String :=
  match dbFailure with
  | some err => (pool, some err)
  | none => (resetDailyCounts pool, none)

/-- A freshly created `GeminiApiKey` row (admin `POST` route,
`prisma.geminiApiKey.create({ data: { key } })`): all other columns take
their schema defaults. -/
def mkGeminiApiKey (id : Nat) (key : String) (now : Nat) : GeminiApiKey :=
  { id := id, key := key, requestCount := 0, isRateLimited := false,
    lastUsedAt := now, createdAt := now }

/-! ### Mutation sequences over the credential store -/

/-- The three operations that mutate `GeminiApiKey` rows: rotator
allocation, daily reset, and administrative creation. -/
inductive PoolOp where
  | alloc (now : Nat)
  | reset
  | create (id : Nat) (key : String) (now : Nat)
  deriving Repr

/-- Apply one mutating operation to the credential table.  A failed
allocation (pool exhausted) leaves the table unchanged. -/
def applyPoolOp (pool : List GeminiApiKey) : PoolOp → List GeminiApiKey
  | .alloc now =>
    match getNextApiKey now pool with
    | .ok (_, pool') => pool'
    | .error _ => pool
  | .reset => resetDailyCounts pool
  | .create id key now => pool ++ [mkGeminiApiKey id key now]

/-- Run a sequence of mutating operations from a starting table. -/
def runPoolOps (ops : List PoolOp) (pool : List GeminiApiKey) : List GeminiApiKey :=
  ops.foldl applyPoolOp pool

/-- The ceiling invariant of the credential store: the rate-limited flag is
set exactly when the request count has reached `MAX_REQUESTS`. -/
def flagCeilingInvariant (pool : List GeminiApiKey) : Prop :=
  ∀ k ∈ pool, k.isRateLimited = decide (MAX_REQUESTS ≤ k.requestCount)

/-! ### Concurrent allocation runs

A Prisma interactive transaction is atomic, so any interleaving of `N`
concurrent `getNextApiKey` calls is some sequential order of `N` atomic
allocation steps.  `runAllocations` executes one such order and tallies
successes and `PoolExhausted` failures. -/

/-- One allocation attempt: returns whether it succeeded and the new table
(unchanged on `PoolExhausted`). -/
def allocOnce (now : Nat) (pool : List GeminiApiKey) : Bool × List GeminiApiKey :=
  match getNextApiKey now pool with
  | .ok (_, pool') => (true, pool')
  | .error _ => (false, pool)

/-- Run one allocation per timestamp in `times`, sequentially (one order of
the concurrent calls); returns (successes, failures, final table). -/
def runAllocations : List Nat → List GeminiApiKey → Nat × Nat × List GeminiApiKey
  | [], pool => (0, 0, pool)
  | t :: ts, pool =>
    let r := allocOnce t pool
    let rest := runAllocations ts r.2
    (rest.1 + (if r.1 then 1 else 0), rest.2.1 + (if r.1 then 0 else 1), rest.2.2)

/-- Remaining capacity contributed by one key: how many further allocations
it can absorb before becoming ineligible. -/
def keyCapacity (k : GeminiApiKey) : Nat :=
  if eligibleKey k then MAX_REQUESTS - k.requestCount else 0

/-- Combined remaining capacity of the pool. -/
def remainingCapacity (pool : List GeminiApiKey) : Nat :=
  (pool.map keyCapacity).sum

/-- Total request count across the pool (used to show every successful
allocation's increment is reflected — no lost updates). -/
def sumCounts (pool : List GeminiApiKey) : Nat :=
  (pool.map (·.requestCount)).sum

/-! ## `hashApiKey` (`src/utils/crypto.js`)

`crypto.createHash('sha256').update(apiKey).digest('hex')`: SHA-256 of the
UTF-8 bytes of the key, rendered as a lowercase hex string.  The algorithm
is embedded directly (FIPS 180-4), on `Nat` words reduced mod `2^32`. -/

/-- Reduce to a 32-bit word. -/
def w32 (n : Nat) : Nat := n % 4294967296

/-- 32-bit rotate right. -/
def rotr32 (x n : Nat) : Nat := w32 ((x <<< (32 - n)) ||| (x >>> n))

def bigSigma0 (x : Nat) : Nat := rotr32 x 2 ^^^ rotr32 x 13 ^^^ rotr32 x 22
def bigSigma1 (x : Nat) : Nat := rotr32 x 6 ^^^ rotr32 x 11 ^^^ rotr32 x 25
def smallSigma0 (x : Nat) : Nat := rotr32 x 7 ^^^ rotr32 x 18 ^^^ (x >>> 3)
def smallSigma1 (x : Nat) : Nat := rotr32 x 17 ^^^ rotr32 x 19 ^^^ (x >>> 10)

def chFn (x y z : Nat) : Nat := (x &&& y) ^^^ ((x ^^^ 4294967295) &&& z)
def majFn (x y z : Nat) : Nat := (x &&& y) ^^^ ((x &&& z) ^^^ (y &&& z))

/-- The 64 SHA-256 round constants (decimal). -/
def sha256K : List Nat :=
  [1116352408, 1899447441, 3049323471, 3921009573, 961987163,
   1508970993, 2453635748, 2870763221, 3624381080, 310598401,
   607225278, 1426881987, 1925078388, 2162078206, 2614888103,
   3248222580, 3835390401, 4022224774, 264347078, 604807628,
   770255983, 1249150122, 1555081692, 1996064986, 2554220882,
   2821834349, 2952996808, 3210313671, 3336571891, 3584528711,
   113926993, 338241895, 666307205, 773529912, 1294757372,
   1396182291, 1695183700, 1986661051, 2177026350, 2456956037,
   2730485921, 2820302411, 3259730800, 3345764771, 3516065817,
   3600352804, 4094571909, 275423344, 430227734, 506948616,
   659060556, 883997877, 958139571, 1322822218, 1537002063,
   1747873779, 1955562222, 2024104815, 2227730452, 2361852424,
   2428436474, 2756734187, 3204031479, 3329325298]

/-- The eight 32-bit working variables of SHA-256. -/
structure Sha256State where
  a : Nat
  b : Nat
  c : Nat
  d : Nat
  e : Nat
  f : Nat
  g : Nat
  hh : Nat
  deriving Repr, DecidableEq

def sha256Init : Sha256State :=
  ⟨1779033703, 3144134277, 1013904242, 2773480762,
   1359893119, 2600822924, 528734635, 1541459225⟩

def compressRound (st : Sha256State) (kw : Nat × Nat) : Sha256State :=
  let t1 := w32 (st.hh + bigSigma1 st.e + chFn st.e st.f st.g + kw.1 + kw.2)
  let t2 := w32 (bigSigma0 st.a + majFn st.a st.b st.c)
  ⟨w32 (t1 + t2), st.a, st.b, st.c, w32 (st.d + t1), st.e, st.f, st.g⟩

/-- UTF-8 bytes of one character. -/
def utf8Bytes (c : Char) : List Nat :=
  let n := c.toNat
  if n < 128 then [n]
  else if n < 2048 then [192 + n / 64, 128 + n % 64]
  else if n < 65536 then [224 + n / 4096, 128 + n / 64 % 64, 128 + n % 64]
  else [240 + n / 262144, 128 + n / 4096 % 64, 128 + n / 64 % 64, 128 + n % 64]

/-- UTF-8 bytes of a string (what `hash.update(apiKey)` consumes). -/
def stringBytes (s : String) : List Nat :=
  (s.data.map utf8Bytes).flatten

/-- `k` big-endian bytes of `n`. -/
def beBytes : Nat → Nat → List Nat
  | 0, _ => []
  | k + 1, n => beBytes k (n / 256) ++ [n % 256]

/-- SHA-256 padding: append `0x80`, zero bytes up to 56 mod 64, then the
bit length as 8 big-endian bytes. -/
def padMessage (msg : List Nat) : List Nat :=
  let zeros := (119 - msg.length % 64) % 64
  msg ++ [128] ++ List.replicate zeros 0 ++ beBytes 8 (msg.length * 8)

/-- Big-endian 32-bit words from bytes. -/
def toWords : List Nat → List Nat
  | b0 :: b1 :: b2 :: b3 :: rest =>
    (((b0 * 256 + b1) * 256 + b2) * 256 + b3) :: toWords rest
  | _ => []

/-- Extend the 16-word message schedule to 64 words. -/
def extendWords (ws : List Nat) : List Nat :=
  (List.range 48).foldl
    (fun ws _ =>
      let t := ws.length
      ws ++ [w32 (smallSigma1 (ws.getD (t - 2) 0) + ws.getD (t - 7) 0 +
                  smallSigma0 (ws.getD (t - 15) 0) + ws.getD (t - 16) 0)])
    ws

/-- One SHA-256 compression-function application. -/
def processBlock (hs : Sha256State) (block : List Nat) : Sha256State :=
  let ws := extendWords (toWords block)
  let st := (sha256K.zip ws).foldl compressRound hs
  ⟨w32 (hs.a + st.a), w32 (hs.b + st.b), w32 (hs.c + st.c), w32 (hs.d + st.d),
   w32 (hs.e + st.e), w32 (hs.f + st.f), w32 (hs.g + st.g), w32 (hs.hh + st.hh)⟩

def chunks64Aux (acc : List Nat) : List Nat → List (List Nat)
  | [] => if acc.isEmpty then [] else [acc.reverse]
  | b :: bs =>
    if acc.length = 63 then (b :: acc).reverse :: chunks64Aux [] bs
    else chunks64Aux (b :: acc) bs

/-- Split a byte list into 64-byte blocks. -/
def chunks64 (bs : List Nat) : List (List Nat) :=
  chunks64Aux [] bs

def hexDigitChar (n : Nat) : Char :=
  if n < 10 then Char.ofNat (48 + n) else Char.ofNat (87 + n)

/-- Lowercase hex rendering of a 32-bit word. -/
def wordHex (n : Nat) : List Char :=
  [hexDigitChar (n / 268435456 % 16), hexDigitChar (n / 16777216 % 16),
   hexDigitChar (n / 1048576 % 16), hexDigitChar (n / 65536 % 16),
   hexDigitChar (n / 4096 % 16), hexDigitChar (n / 256 % 16),
   hexDigitChar (n / 16 % 16), hexDigitChar (n % 16)]

/-- `hashApiKey` from `src/utils/crypto.js`: SHA-256 of the UTF-8 bytes of
the key, as a lowercase hex string. -/
def hashApiKey (apiKey : String) : String :=
  let bs := padMessage (stringBytes apiKey)
  let fin := (chunks64 bs).foldl processBlock sha256Init
  String.mk (([fin.a, fin.b, fin.c, fin.d, fin.e, fin.f, fin.g, fin.hh].map wordHex).flatten)

/-! ## Quota gate data model (Prisma schema rows used by `apiAuth.js`) -/

/-- `ApiKeyStatus` enum. -/
inductive ApiKeyStatus where
  | active
  | revoked
  deriving Repr, DecidableEq

/-- `AccountStatus` enum. -/
inductive AccountStatus where
  | pending_verification
  | active
  | suspended
  deriving Repr, DecidableEq

/-- `SubscriptionStatus` enum. -/
inductive SubscriptionStatus where
  | trialing
  | active
  | past_due
  | canceled
  deriving Repr, DecidableEq

/-- `SubscriptionPlan` row (fields read by the gate). -/
structure SubscriptionPlan where
  name : String
  requestLimitMonthly : Nat
  deriving Repr, DecidableEq

/-- `UserSubscription` row joined with its plan (the `include` of the
gate's query). -/
structure UserSubscription where
  status : SubscriptionStatus
  currentPeriodStart : Nat
  plan : SubscriptionPlan
  deriving Repr, DecidableEq

/-- `User` row joined with its current subscription. -/
structure User where
  id : Nat
  accountStatus : AccountStatus
  currentSubscription : Option UserSubscription
  deriving Repr, DecidableEq

/-- `ApiKey` row (product API key) joined with its owning user. -/
structure ApiKey where
  id : Nat
  name : String
  keyPrefix : String
  keyHash : String
  status : ApiKeyStatus
  lastUsedAt : Option Nat
  createdAt : Nat
  userId : Nat
  user : User
  deriving Repr, DecidableEq

/-- `ApiUsageLog` row.  (`responseTimeMs` is elided: no embedded claim
reads it.) -/
structure ApiUsageLog where
  userId : Nat
  apiKeyId : Nat
  httpMethod : String
  endpoint : String
  httpStatusCode : Nat
  creditsConsumed : Nat
  requestTimestamp : Nat
  deriving Repr, DecidableEq

/-- The parts of an inbound request the gate reads. -/
structure Request where
  authorization : Option String
  method : String
  originalUrl : String
  deriving Repr, DecidableEq

/-- Outcome of one run of `apiAuthMiddleware`. -/
inductive GateOutcome where
  | missingCredential
  | invalidCredential
  | revokedCredential
  | accountSuspended
  | quotaExceeded (limit used : Nat) (planName : String)
  | admitted
  deriving Repr, DecidableEq

/-- Observable result of one gated request: the middleware outcome, the
final HTTP status of the response, the Usage Log entry written by the
`res.on('finish')` hook (if any), whether the quota count query ran, and
whether `next()` was called (control passed downstream). -/
structure GateRun where
  outcome : GateOutcome
  statusCode : Nat
  logEntry : Option ApiUsageLog
  usageCounted : Bool
  nextCalled : Bool
  deriving Repr, DecidableEq

/-- JS `authHeader.startsWith('Bearer ')`. -/
def startsWithBearer (h : String) : Bool :=
  "Bearer ".data.isPrefixOf h.data

def splitOnSpaceAux : List Char → List Char → List String
  | [], cur => [String.mk cur.reverse]
  | c :: cs, cur =>
    if c = ' ' then String.mk cur.reverse :: splitOnSpaceAux cs []
    else splitOnSpaceAux cs (c :: cur)

/-- JS `String.prototype.split(' ')`: split at every single space,
keeping empty segments. -/
def jsSplitSpace (s : String) : List String :=
  splitOnSpaceAux s.data []

/-- Lines 48–52 of `apiAuth.js`: reject unless the header is present and
starts with `"Bearer "`; the presented key is `authHeader.split(' ')[1]`. -/
def extractBearerToken (authHeader : Option String) : Option String :=
  match authHeader with
  | none => none
  | some h =>
    if startsWithBearer h then some ((jsSplitSpace h).getD 1 "") else none

/-- Lines 55–67: `prisma.apiKey.findUnique({ where: { keyHash } })` — the
`keyHash` column carries a unique index, modelled as `find?` over the
table. -/
def lookupApiKey (keys : List ApiKey) (apiKey : String) : Option ApiKey :=
  keys.find? fun k => k.keyHash == hashApiKey apiKey

/-- `FREE_TIER_LIMIT` from `apiAuth.js`. -/
def FREE_TIER_LIMIT : Nat := 5

/-- 30 days in milliseconds — `periodStart.setDate(periodStart.getDate() -
30)` modelled as a fixed 30-day interval before `now`. -/
def thirtyDaysMs : Nat := 30 * 24 * 60 * 60 * 1000

/-- The quota count query (lines 98–103): number of Usage Log entries of
this user with `requestTimestamp ≥ periodStart`.  It filters only by user
and timestamp — not by response status. -/
def usageCountOf (logs : List ApiUsageLog) (uid periodStart : Nat) : Nat :=
  (logs.filter fun l =>
    l.userId == uid && decide (periodStart ≤ l.requestTimestamp)).length

/-- The Usage Log entry written by the `res.on('finish')` hook (lines
26–36): final response status, one credit, method/url of the request. -/
def mkUsageLog (now : Nat) (req : Request) (key : ApiKey) (status : Nat) :
    ApiUsageLog :=
  { userId := key.userId, apiKeyId := key.id, httpMethod := req.method,
    endpoint := req.originalUrl, httpStatusCode := status,
    creditsConsumed := 1, requestTimestamp := now }

/-- `apiAuthMiddleware` from `src/middleware/apiAuth.js`, as a function of
the request, the `ApiKey` and `ApiUsageLog` tables and the current time.
`downstreamStatus` is the status the downstream handler produces when the
request is admitted (`next()` called).  The returned `GateRun` records the
response status, the log entry the finish hook writes (written exactly when
both `apiKeyData` and `userData` were assigned, i.e. after the revoked and
suspended checks pass), whether the quota count query ran, and whether
`next()` was reached. -/
def apiAuthMiddleware (now : Nat) (keys : List ApiKey) (logs : List ApiUsageLog)
    (req : Request) (downstreamStatus : Nat) : GateRun :=
  match extractBearerToken req.authorization with
  | none =>
    { outcome := .missingCredential, statusCode := 401, logEntry := none,
      usageCounted := false, nextCalled := false }
  | some apiKey =>
    match lookupApiKey keys apiKey with
    | none =>
      { outcome := .invalidCredential, statusCode := 401, logEntry := none,
        usageCounted := false, nextCalled := false }
    | some key =>
      if key.status = .revoked then
        { outcome := .revokedCredential, statusCode := 403, logEntry := none,
          usageCounted := false, nextCalled := false }
      else if key.user.accountStatus = .suspended then
        { outcome := .accountSuspended, statusCode := 403, logEntry := none,
          usageCounted := false, nextCalled := false }
      else
        -- `apiKeyData` and `userData` are now set: the finish hook will log.
        let subscription := key.user.currentSubscription
        let limits :=
          match subscription with
          | some s =>
            if s.status = SubscriptionStatus.active then (s.plan.requestLimitMonthly, s.currentPeriodStart)
            else (FREE_TIER_LIMIT, now - thirtyDaysMs)
          | none => (FREE_TIER_LIMIT, now - thirtyDaysMs)
        let requestLimit := limits.1
        let periodStart := limits.2
        let usageCount := usageCountOf logs key.userId periodStart
        if requestLimit ≤ usageCount then
          { outcome := .quotaExceeded requestLimit usageCount
              (match subscription with | some s => s.plan.name | none => "Free Tier"),
            statusCode := 429, logEntry := some (mkUsageLog now req key 429),
            usageCounted := true, nextCalled := false }
        else
          { outcome := .admitted, statusCode := downstreamStatus,
            logEntry := some (mkUsageLog now req key downstreamStatus),
            usageCounted := true, nextCalled := true }

/-- A gated request end to end: the middleware, then — only if `next()`
was called — the downstream `try-on` handler, which allocates a provider
credential via `getNextApiKey` and, on success, calls the upstream image
API.  Returns the gate run, the credential pool after the request, and
whether the upstream call was made. -/
def handleGatedRequest (now : Nat) (keys : List ApiKey) (logs : List ApiUsageLog)
    (pool : List GeminiApiKey) (req : Request) (downstreamStatus : Nat) :
    GateRun × List GeminiApiKey × Bool :=
  let run := apiAuthMiddleware now keys logs req downstreamStatus
  if run.nextCalled then
    match getNextApiKey now pool with
    | .ok (_, pool') => (run, pool', true)
    | .error _ => (run, pool, false)
  else (run, pool, false)

/-! ## Product API key routes (`src/routes/apiKeys.js`) -/

/-- `generateApiKey()`: `'vto_live_' + crypto.randomBytes(32).toString('hex')`.
`randomHex` stands for the random hex string. -/
def generateApiKey (randomHex : String) : String :=
  "vto_live_" ++ randomHex

/-- The `select` of the create route: the metadata echoed back (not the
hash). -/
structure KeyDetails where
  id : Nat
  name : String
  keyPrefix : String
  createdAt : Nat
  deriving Repr, DecidableEq

/-- Body of the `201` response of `POST /api/keys`: the plaintext key (the
only time it is ever returned) plus the saved metadata. -/
structure CreateKeyResponse where
  apiKey : String
  keyDetails : KeyDetails
  deriving Repr, DecidableEq

/-- `POST /api/keys`: generate a key, hash it, persist only the hash (plus
the display `keyPrefix` `"vto_live"`), and return the plaintext once.
`newId`/`now` model the database-assigned id and `CURRENT_TIMESTAMP`. -/
def createApiKeyRoute (user : User) (name : String) (randomHex : String)
    (newId now : Nat) (keys : List ApiKey) : List ApiKey × CreateKeyResponse :=
  let newApiKey := generateApiKey randomHex
  let hashedKey := hashApiKey newApiKey
  let saved : ApiKey :=
    { id := newId, name := name, keyPrefix := "vto_live", keyHash := hashedKey,
      status := .active, lastUsedAt := none, createdAt := now,
      userId := user.id, user := user }
  (keys ++ [saved],
   { apiKey := newApiKey,
     keyDetails := { id := newId, name := name, keyPrefix := "vto_live", createdAt := now } })

/-- One row of the `GET /api/keys` response: only the safe fields of the
route's `select` (id, name, keyPrefix, status, createdAt, lastUsedAt). -/
structure ApiKeyListItem where
  id : Nat
  name : String
  keyPrefix : String
  status : ApiKeyStatus
  createdAt : Nat
  lastUsedAt : Option Nat
  deriving Repr, DecidableEq

/-- `GET /api/keys`: the caller's keys projected to the safe fields.
(The route also orders by `createdAt` descending; ordering is irrelevant
to the embedded claims and is left as stored order.) -/
def listApiKeys (keys : List ApiKey) (userId : Nat) : List ApiKeyListItem :=
  (keys.filter fun k => k.userId == userId).map fun k =>
    { id := k.id, name := k.name, keyPrefix := k.keyPrefix, status := k.status,
      createdAt := k.createdAt, lastUsedAt := k.lastUsedAt }

/-! ## Spec-side definitions (refinement targets)

These definitions follow the wording of the specification (§4.2
QuotaChecked and §7 propagation order) and are compared against the
middleware embedded from the source. -/

/-- Spec §4.2: active subscription ⇒ the plan's monthly limit; otherwise
the free-tier fallback limit of 5. -/
def specQuotaLimit (u : User) : Nat :=
  match u.currentSubscription with
  | some s => if s.status = SubscriptionStatus.active
              then s.plan.requestLimitMonthly else FREE_TIER_LIMIT
  | none => FREE_TIER_LIMIT

/-- Spec §4.2: active subscription ⇒ window starts at
`currentPeriodStart`; otherwise a trailing 30-day window ending now. -/
def specWindowStart (now : Nat) (u : User) : Nat :=
  match u.currentSubscription with
  | some s => if s.status = SubscriptionStatus.active
              then s.currentPeriodStart else now - thirtyDaysMs
  | none => now - thirtyDaysMs

/-- Spec §4.2: the user's Usage Log entries within the window
(`start ≤ t ≤ now`). -/
def specWindowCount (now start uid : Nat) (logs : List ApiUsageLog) : Nat :=
  (logs.filter fun l =>
    l.userId == uid && decide (start ≤ l.requestTimestamp)
      && decide (l.requestTimestamp ≤ now)).length

/-- The plan name reported in the 429 body (line 110):
`subscription ? subscription.plan.name : 'Free Tier'`. -/
def reportedPlanName (u : User) : String :=
  match u.currentSubscription with
  | some s => s.plan.name
  | none => "Free Tier"

/-- The condition under which lines 74–75 run (`apiKeyData`/`userData`
assigned, so the finish hook writes a Usage Log entry): bearer token
present, hash matched, key not revoked, owner not suspended. -/
def resolvesUserAndKey (keys : List ApiKey) (req : Request) : Bool :=
  match extractBearerToken req.authorization with
  | none => false
  | some tok =>
    match lookupApiKey keys tok with
    | none => false
    | some key =>
      !(key.status == ApiKeyStatus.revoked)
        && !(key.user.accountStatus == AccountStatus.suspended)

/-- Spec §4.2/§7: the authorization checks in their specified order; the
first failing check, or `none` when authentication succeeds. -/
def specAuthFailure (keys : List ApiKey) (req : Request) : Option GateOutcome :=
  match extractBearerToken req.authorization with
  | none => some .missingCredential
  | some tok =>
    match lookupApiKey keys tok with
    | none => some .invalidCredential
    | some key =>
      if key.status = ApiKeyStatus.revoked then some .revokedCredential
      else if key.user.accountStatus = AccountStatus.suspended then some .accountSuspended
      else none

/-- Spec §7: the HTTP status of each authorization failure. -/
def specFailureStatus : GateOutcome → Nat
  | .missingCredential => 401
  | .invalidCredential => 401
  | .revokedCredential => 403
  | .accountSuspended => 403
  | .quotaExceeded _ _ _ => 429
  | .admitted => 0

/-- The record persisted by `POST /api/keys` (restated standalone; the
route's output is definitionally `keys ++ [savedApiKey …]`). -/
def savedApiKey (user : User) (name randomHex : String) (newId now : Nat) : ApiKey :=
  { id := newId, name := name, keyPrefix := "vto_live",
    keyHash := hashApiKey (generateApiKey randomHex), status := .active,
    lastUsedAt := none, createdAt := now, userId := user.id, user := user }

/-! ### Sample rows for concrete instantiations -/

def sampleFreeUser : User :=
  { id := 7, accountStatus := .active, currentSubscription := none }

def sampleRevokedKey : ApiKey :=
  { id := 1, name := "revoked key", keyPrefix := "vto_live",
    keyHash := hashApiKey "tokR", status := .revoked, lastUsedAt := none,
    createdAt := 0, userId := 7, user := sampleFreeUser }

def sampleFreeKey : ApiKey :=
  { id := 3, name := "free key", keyPrefix := "vto_live",
    keyHash := hashApiKey "tokF", status := .active, lastUsedAt := none,
    createdAt := 0, userId := 7, user := sampleFreeUser }

def samplePlanZero : SubscriptionPlan := { name := "Pro", requestLimitMonthly := 0 }

def sampleQuotaUser : User :=
  { id := 9, accountStatus := .active,
    currentSubscription := some { status := .active, currentPeriodStart := 0,
                                  plan := samplePlanZero } }

def sampleQuotaKey : ApiKey :=
  { id := 2, name := "exhausted key", keyPrefix := "vto_live",
    keyHash := hashApiKey "tokQ", status := .active, lastUsedAt := none,
    createdAt := 0, userId := 9, user := sampleQuotaUser }

/-! ## Selection lemmas -/

theorem minByLastUsedAt_eq_none {l : List GeminiApiKey} :
    minByLastUsedAt l = none ↔ l = [] := by
  cases l with
  | nil => simp [minByLastUsedAt]
  | cons k ks =>
    simp only [minByLastUsedAt]
    cases hm : minByLastUsedAt ks with
    | none => simp
    | some b =>
      constructor
      · intro h
        by_cases hle : k.lastUsedAt ≤ b.lastUsedAt <;> simp [hle] at h
      · intro h
        exact absurd h (List.cons_ne_nil k ks)

theorem minByLastUsedAt_mem {l : List GeminiApiKey} :
    ∀ {k : GeminiApiKey}, minByLastUsedAt l = some k → k ∈ l := by
  induction l with
  | nil => intro k h; simp [minByLastUsedAt] at h
  | cons a as ih =>
    intro k h
    simp only [minByLastUsedAt] at h
    cases hm : minByLastUsedAt as with
    | none =>
      simp only [hm] at h
      injection h with h
      subst h
      exact List.mem_cons_self a as
    | some b =>
      simp only [hm] at h
      by_cases hle : a.lastUsedAt ≤ b.lastUsedAt
      · rw [if_pos hle] at h
        injection h with h
        subst h
        exact List.mem_cons_self a as
      · rw [if_neg hle] at h
        injection h with h
        subst h
        exact List.mem_cons_of_mem a (ih hm)

theorem minByLastUsedAt_le {l : List GeminiApiKey} :
    ∀ {k : GeminiApiKey}, minByLastUsedAt l = some k →
      ∀ j ∈ l, k.lastUsedAt ≤ j.lastUsedAt := by
  induction l with
  | nil => intro k h; simp [minByLastUsedAt] at h
  | cons a as ih =>
    intro k h j hj
    simp only [minByLastUsedAt] at h
    cases hm : minByLastUsedAt as with
    | none =>
      simp only [hm] at h
      injection h with h
      subst h
      rcases List.mem_cons.mp hj with rfl | hj
      · exact Nat.le_refl _
      · rw [minByLastUsedAt_eq_none.mp hm] at hj
        exact absurd hj (List.not_mem_nil j)
    | some b =>
      simp only [hm] at h
      by_cases hle : a.lastUsedAt ≤ b.lastUsedAt
      · rw [if_pos hle] at h
        injection h with h
        subst h
        rcases List.mem_cons.mp hj with rfl | hj
        · exact Nat.le_refl _
        · exact Nat.le_trans hle (ih hm j hj)
      · rw [if_neg hle] at h
        injection h with h
        subst h
        rcases List.mem_cons.mp hj with rfl | hj
        · exact Nat.le_of_lt (Nat.lt_of_not_le hle)
        · exact ih hm j hj

theorem selectNextKey_some {pool : List GeminiApiKey} {k : GeminiApiKey}
    (h : selectNextKey pool = some k) :
    k ∈ pool ∧ eligibleKey k = true ∧
      ∀ j ∈ pool, eligibleKey j = true → k.lastUsedAt ≤ j.lastUsedAt := by
  unfold selectNextKey at h
  have hmem := minByLastUsedAt_mem h
  have hle := minByLastUsedAt_le h
  refine ⟨(List.mem_filter.mp hmem).1, (List.mem_filter.mp hmem).2, ?_⟩
  intro j hj hje
  exact hle j (List.mem_filter.mpr ⟨hj, hje⟩)

theorem selectNextKey_none {pool : List GeminiApiKey}
    (h : selectNextKey pool = none) :
    ∀ j ∈ pool, eligibleKey j = false := by
  unfold selectNextKey at h
  have hnil := minByLastUsedAt_eq_none.mp h
  intro j hj
  by_contra hne
  have : j ∈ pool.filter eligibleKey :=
    List.mem_filter.mpr ⟨hj, by revert hne; cases eligibleKey j <;> simp⟩
  rw [hnil] at this
  exact List.not_mem_nil j this

/-- **C3**: `getNextApiKey` returns the key of a credential that is
eligible (rate-limited flag false, count < 249) and least-recently-used
among all eligible credentials; it fails — with the pool-exhausted error —
exactly when no eligible credential exists. -/
theorem getNextApiKey_lru_policy (now : Nat) (pool : List GeminiApiKey) :
    match getNextApiKey now pool with
    | .ok r =>
        ∃ k, k ∈ pool ∧ eligibleKey k = true ∧ k.key = r.1 ∧
          ∀ j ∈ pool, eligibleKey j = true → k.lastUsedAt ≤ j.lastUsedAt
    | .error msg =>
        msg = poolExhaustedMsg ∧ ∀ j ∈ pool, eligibleKey j = false := by
  cases hs : selectNextKey pool with
  | none =>
    simp only [getNextApiKey, hs]
    exact ⟨trivial, selectNextKey_none hs⟩
  | some nk =>
    simp only [getNextApiKey, hs]
    obtain ⟨hmem, helig, hmin⟩ := selectNextKey_some hs
    exact ⟨nk, hmem, helig, rfl, hmin⟩

/-- **C3 instance**: concrete two-key pool — the older eligible key wins. -/
theorem getNextApiKey_lru_policy_witness :
    match getNextApiKey 50 [mkGeminiApiKey 1 "kA" 10, mkGeminiApiKey 2 "kB" 3] with
    | .ok r =>
        ∃ k, k ∈ [mkGeminiApiKey 1 "kA" 10, mkGeminiApiKey 2 "kB" 3] ∧
          eligibleKey k = true ∧ k.key = r.1 ∧
          ∀ j ∈ [mkGeminiApiKey 1 "kA" 10, mkGeminiApiKey 2 "kB" 3],
            eligibleKey j = true → k.lastUsedAt ≤ j.lastUsedAt
    | .error msg =>
        msg = poolExhaustedMsg ∧
          ∀ j ∈ [mkGeminiApiKey 1 "kA" 10, mkGeminiApiKey 2 "kB" 3],
            eligibleKey j = false :=
  getNextApiKey_lru_policy 50 [mkGeminiApiKey 1 "kA" 10, mkGeminiApiKey 2 "kB" 3]

/-! ## The ceiling invariant (C4) -/

theorem flagCeilingInvariant_applyPoolOp {pool : List GeminiApiKey}
    (op : PoolOp) (h : flagCeilingInvariant pool) :
    flagCeilingInvariant (applyPoolOp pool op) := by
  cases op with
  | alloc now =>
    unfold applyPoolOp
    cases hs : selectNextKey pool with
    | none =>
      simp only [getNextApiKey, hs]
      exact h
    | some nk =>
      simp only [getNextApiKey, hs]
      intro k hk
      simp only [updateChosenKey, List.mem_map] at hk
      obtain ⟨k0, hk0, rfl⟩ := hk
      by_cases hid : k0.id = nk.id
      · simp [hid]
      · simp only [if_neg hid]
        exact h k0 hk0
  | reset =>
    intro k hk
    obtain ⟨k0, hk0, rfl⟩ := List.mem_map.mp hk
    simp [MAX_REQUESTS]
  | create id key now =>
    intro k hk
    rcases List.mem_append.mp hk with hk | hk
    · exact h k hk
    · simp at hk
      subst hk
      simp [mkGeminiApiKey, MAX_REQUESTS]

/-- **C4**: in every credential-store state reachable from creation by any
sequence of rotator allocations, daily resets and administrative
creations, every credential's rate-limited flag is set if and only if its
request count has reached the ceiling of 249. -/
theorem flagCeilingInvariant_reachable (ops : List PoolOp) :
    flagCeilingInvariant (runPoolOps ops []) := by
  have hgen : ∀ (ops : List PoolOp) (pool : List GeminiApiKey),
      flagCeilingInvariant pool → flagCeilingInvariant (runPoolOps ops pool) := by
    intro ops
    induction ops with
    | nil => intro pool h; exact h
    | cons op rest ih =>
      intro pool h
      exact ih _ (flagCeilingInvariant_applyPoolOp op h)
  exact hgen ops [] (by intro k hk; exact absurd hk (List.not_mem_nil k))

/-! ## Daily reset (C7) -/

/-- **C7**: a successful `resetDailyCounts` run sets every credential's
count to 0 and rate-limited flag to false in one bulk update and logs no
error; a failed run leaves the store unchanged, logs the error, and
returns normally (the catch swallows the exception). -/
theorem resetDailyCounts_spec (pool : List GeminiApiKey) (dbFailure : Option String) :
    match dbFailure, resetDailyCountsRun dbFailure pool with
    | none, r =>
        (∀ k ∈ r.1, k.requestCount = 0 ∧ k.isRateLimited = false) ∧ r.2 = none
    | some e, r => r.1 = pool ∧ r.2 = some e := by
  cases dbFailure with
  | none =>
    refine ⟨?_, rfl⟩
    intro k hk
    obtain ⟨k0, _, rfl⟩ := List.mem_map.mp hk
    exact ⟨rfl, rfl⟩
  | some e => exact ⟨rfl, rfl⟩

/-- **C7 instance**: reset of a saturated two-key pool zeroes both; a
failing run is caught and leaves the pool alone. -/
theorem resetDailyCounts_spec_witness :
    (match (none : Option String),
        resetDailyCountsRun none [⟨1, "kA", 249, true, 7, 0⟩] with
      | none, r =>
          (∀ k ∈ r.1, k.requestCount = 0 ∧ k.isRateLimited = false) ∧ r.2 = none
      | some e, r => r.1 = [⟨1, "kA", 249, true, 7, 0⟩] ∧ r.2 = some e) ∧
    (match (some "db down" : Option String),
        resetDailyCountsRun (some "db down") [⟨1, "kA", 249, true, 7, 0⟩] with
      | none, r =>
          (∀ k ∈ r.1, k.requestCount = 0 ∧ k.isRateLimited = false) ∧ r.2 = none
      | some e, r => r.1 = [⟨1, "kA", 249, true, 7, 0⟩] ∧ r.2 = some e) :=
  ⟨resetDailyCounts_spec [⟨1, "kA", 249, true, 7, 0⟩] none,
   resetDailyCounts_spec [⟨1, "kA", 249, true, 7, 0⟩] (some "db down")⟩

/-! ## Concurrent allocation counting (C1) -/

/-- The record the chosen row becomes after the transactional update. -/
def bumpKey (nk : GeminiApiKey) (now : Nat) : GeminiApiKey :=
  { nk with requestCount := nk.requestCount + 1,
            isRateLimited := decide (MAX_REQUESTS ≤ nk.requestCount + 1),
            lastUsedAt := now }

theorem map_eq_self_of {α : Type} {f : α → α} :
    ∀ {l : List α}, (∀ a ∈ l, f a = a) → l.map f = l := by
  intro l
  induction l with
  | nil => intro _; rfl
  | cons a as ih =>
    intro h
    rw [List.map_cons, h a (List.mem_cons_self a as),
        ih fun b hb => h b (List.mem_cons_of_mem a hb)]

theorem updateChosenKey_split {l1 l2 : List GeminiApiKey} {nk : GeminiApiKey}
    (now : Nat) (hnd : (((l1 ++ nk :: l2)).map (·.id)).Nodup) :
    updateChosenKey nk now (l1 ++ nk :: l2) = l1 ++ bumpKey nk now :: l2 := by
  rw [List.map_append, List.map_cons, List.nodup_append] at hnd
  obtain ⟨_, hnd2, hdisj⟩ := hnd
  have hl1 : ∀ k ∈ l1, k.id ≠ nk.id := by
    intro k hk heq
    exact hdisj (List.mem_map_of_mem _ hk) (heq ▸ List.mem_cons_self _ _)
  have hl2 : ∀ k ∈ l2, k.id ≠ nk.id := by
    intro k hk heq
    exact (List.nodup_cons.mp hnd2).1 (heq ▸ List.mem_map_of_mem _ hk)
  unfold updateChosenKey
  rw [List.map_append, List.map_cons, if_pos rfl]
  congr 1
  · exact map_eq_self_of fun k hk => if_neg (hl1 k hk)
  · congr 1
    exact map_eq_self_of fun k hk => if_neg (hl2 k hk)

theorem eligibleKey_true_iff {k : GeminiApiKey} :
    eligibleKey k = true ↔ k.isRateLimited = false ∧ k.requestCount < MAX_REQUESTS := by
  simp [eligibleKey]

theorem keyCapacity_bumpKey {nk : GeminiApiKey} (now : Nat)
    (helig : eligibleKey nk = true) :
    keyCapacity (bumpKey nk now) + 1 = keyCapacity nk := by
  obtain ⟨hf, hlt⟩ := eligibleKey_true_iff.mp helig
  have hb : (bumpKey nk now).requestCount = nk.requestCount + 1 := rfl
  unfold keyCapacity
  rw [if_pos helig]
  by_cases hc : MAX_REQUESTS ≤ nk.requestCount + 1
  · rw [if_neg]
    · omega
    · simp [eligibleKey, bumpKey, hc]
  · rw [if_pos]
    · omega
    · simp [eligibleKey, bumpKey, hc]
      omega

theorem remainingCapacity_updateChosenKey {pool : List GeminiApiKey}
    {nk : GeminiApiKey} (now : Nat) (hmem : nk ∈ pool)
    (helig : eligibleKey nk = true) (hnd : (pool.map (·.id)).Nodup) :
    remainingCapacity (updateChosenKey nk now pool) + 1 = remainingCapacity pool := by
  obtain ⟨l1, l2, rfl⟩ := List.append_of_mem hmem
  rw [updateChosenKey_split now hnd]
  unfold remainingCapacity
  rw [List.map_append, List.map_cons, List.sum_append, List.sum_cons,
      List.map_append, List.map_cons, List.sum_append, List.sum_cons]
  have := keyCapacity_bumpKey now helig
  omega

theorem sumCounts_updateChosenKey {pool : List GeminiApiKey}
    {nk : GeminiApiKey} (now : Nat) (hmem : nk ∈ pool)
    (hnd : (pool.map (·.id)).Nodup) :
    sumCounts (updateChosenKey nk now pool) = sumCounts pool + 1 := by
  obtain ⟨l1, l2, rfl⟩ := List.append_of_mem hmem
  rw [updateChosenKey_split now hnd]
  unfold sumCounts
  rw [List.map_append, List.map_cons, List.sum_append, List.sum_cons,
      List.map_append, List.map_cons, List.sum_append, List.sum_cons]
  have hb : (bumpKey nk now).requestCount = nk.requestCount + 1 := rfl
  omega

theorem ids_updateChosenKey (nk : GeminiApiKey) (now : Nat)
    (pool : List GeminiApiKey) :
    (updateChosenKey nk now pool).map (·.id) = pool.map (·.id) := by
  unfold updateChosenKey
  rw [List.map_map]
  apply List.map_congr_left
  intro k _
  by_cases hid : k.id = nk.id <;> simp [hid]

theorem counts_le_updateChosenKey {pool : List GeminiApiKey}
    {nk : GeminiApiKey} (now : Nat) (helig : eligibleKey nk = true)
    (hle : ∀ k ∈ pool, k.requestCount ≤ MAX_REQUESTS) :
    ∀ k ∈ updateChosenKey nk now pool, k.requestCount ≤ MAX_REQUESTS := by
  have hlt := (eligibleKey_true_iff.mp helig).2
  intro k hk
  unfold updateChosenKey at hk
  rw [List.mem_map] at hk
  obtain ⟨k0, hk0, rfl⟩ := hk
  by_cases hid : k0.id = nk.id
  · rw [if_pos hid]
    show nk.requestCount + 1 ≤ MAX_REQUESTS
    omega
  · rw [if_neg hid]
    exact hle k0 hk0

theorem remainingCapacity_eq_zero {pool : List GeminiApiKey} :
    remainingCapacity pool = 0 ↔ ∀ k ∈ pool, eligibleKey k = false := by
  unfold remainingCapacity
  induction pool with
  | nil => simp
  | cons a as ih =>
    rw [List.map_cons, List.sum_cons]
    constructor
    · intro h k hk
      have ha : keyCapacity a = 0 := by omega
      have has : (as.map keyCapacity).sum = 0 := by omega
      rcases List.mem_cons.mp hk with rfl | hk
      · by_cases he : eligibleKey k = true
        · have hlt := (eligibleKey_true_iff.mp he).2
          unfold keyCapacity at ha
          rw [if_pos he] at ha
          omega
        · exact Bool.not_eq_true _ ▸ (by revert he; cases eligibleKey k <;> simp)
      · exact ih.mp has k hk
    · intro h
      have ha : keyCapacity a = 0 := by
        unfold keyCapacity
        rw [if_neg]
        rw [h a (List.mem_cons_self a as)]
        simp
      have has : (as.map keyCapacity).sum = 0 :=
        ih.mpr fun k hk => h k (List.mem_cons_of_mem a hk)
      omega

theorem selectNextKey_eq_none_iff {pool : List GeminiApiKey} :
    selectNextKey pool = none ↔ ∀ j ∈ pool, eligibleKey j = false := by
  constructor
  · exact selectNextKey_none
  · intro h
    unfold selectNextKey
    rw [minByLastUsedAt_eq_none, List.filter_eq_nil_iff]
    intro a ha
    rw [h a ha]
    simp

theorem runAllocations_spec :
    ∀ (times : List Nat) (pool : List GeminiApiKey),
      (pool.map (·.id)).Nodup →
      (∀ k ∈ pool, k.requestCount ≤ MAX_REQUESTS) →
      (runAllocations times pool).1 = min (remainingCapacity pool) times.length ∧
      (runAllocations times pool).2.1 = times.length - (runAllocations times pool).1 ∧
      (∀ k ∈ (runAllocations times pool).2.2, k.requestCount ≤ MAX_REQUESTS) ∧
      sumCounts (runAllocations times pool).2.2
        = sumCounts pool + (runAllocations times pool).1 := by
  intro times
  induction times with
  | nil =>
    intro pool _ hle
    simp [runAllocations]
    exact hle
  | cons t ts ih =>
    intro pool hnd hle
    cases hs : selectNextKey pool with
    | none =>
      have hcap : remainingCapacity pool = 0 :=
        remainingCapacity_eq_zero.mpr (selectNextKey_eq_none_iff.mp hs)
      have hrun : runAllocations (t :: ts) pool
          = ((runAllocations ts pool).1,
             (runAllocations ts pool).2.1 + 1,
             (runAllocations ts pool).2.2) := by
        simp [runAllocations, allocOnce, getNextApiKey, hs]
      obtain ⟨ih1, ih2, ih3, ih4⟩ := ih pool hnd hle
      rw [hrun]
      refine ⟨?_, ?_, ih3, ?_⟩
      · simp only []
        omega
      · simp only [List.length_cons]
        omega
      · simp only []
        omega
    | some nk =>
      obtain ⟨hmem, helig, _⟩ := selectNextKey_some hs
      have hcap1 : 1 ≤ remainingCapacity pool := by
        by_contra hz
        have h0 : remainingCapacity pool = 0 := by omega
        have := remainingCapacity_eq_zero.mp h0 nk hmem
        rw [helig] at this
        cases this
      have hcap := remainingCapacity_updateChosenKey t hmem helig hnd
      have hnd' : ((updateChosenKey nk t pool).map (·.id)).Nodup := by
        rw [ids_updateChosenKey]
        exact hnd
      have hle' := counts_le_updateChosenKey t helig hle
      have hsum := sumCounts_updateChosenKey t hmem hnd
      have hrun : runAllocations (t :: ts) pool
          = ((runAllocations ts (updateChosenKey nk t pool)).1 + 1,
             (runAllocations ts (updateChosenKey nk t pool)).2.1,
             (runAllocations ts (updateChosenKey nk t pool)).2.2) := by
        simp [runAllocations, allocOnce, getNextApiKey, hs]
      obtain ⟨ih1, ih2, ih3, ih4⟩ := ih (updateChosenKey nk t pool) hnd' hle'
      rw [hrun]
      refine ⟨?_, ?_, ih3, ?_⟩
      · simp only [List.length_cons]
        omega
      · simp only [List.length_cons]
        omega
      · simp only []
        omega

/-- **C1**: any interleaving of `N` concurrent allocation transactions
(each `getNextApiKey` call is one atomic `prisma.$transaction`) against a
pool of combined remaining capacity `C < N` yields exactly `C` successes
and `N − C` pool-exhausted failures; every success's increment is
reflected in the final store (the total count rises by exactly the number
of successes), and no credential's request count exceeds the ceiling of
249 at any point of the run. -/
theorem getNextApiKey_concurrent_exhaustion (times : List Nat)
    (pool : List GeminiApiKey)
    (hnd : (pool.map (·.id)).Nodup)
    (hle : ∀ k ∈ pool, k.requestCount ≤ MAX_REQUESTS)
    (hlt : remainingCapacity pool < times.length) :
    (runAllocations times pool).1 = remainingCapacity pool ∧
    (runAllocations times pool).2.1 = times.length - remainingCapacity pool ∧
    sumCounts (runAllocations times pool).2.2
      = sumCounts pool + remainingCapacity pool ∧
    ∀ i, ∀ k ∈ (runAllocations (times.take i) pool).2.2,
      k.requestCount ≤ MAX_REQUESTS := by
  obtain ⟨h1, h2, _, h4⟩ := runAllocations_spec times pool hnd hle
  have hmin : min (remainingCapacity pool) times.length = remainingCapacity pool := by
    omega
  refine ⟨hmin ▸ h1, ?_, ?_, ?_⟩
  · rw [h2, h1, hmin]
  · rw [h4, h1, hmin]
  · intro i
    exact (runAllocations_spec (times.take i) pool hnd hle).2.2.1

/-- **C1 instance**: a single key with one unit of capacity left and two
concurrent calls — one success, one `PoolExhausted` failure, count capped
at 249. -/
theorem getNextApiKey_concurrent_exhaustion_witness :
    (([⟨1, "kA", 248, false, 0, 0⟩] : List GeminiApiKey).map (·.id)).Nodup ∧
    (∀ k ∈ ([⟨1, "kA", 248, false, 0, 0⟩] : List GeminiApiKey),
      k.requestCount ≤ MAX_REQUESTS) ∧
    remainingCapacity [⟨1, "kA", 248, false, 0, 0⟩] < [5, 6].length ∧
    ((runAllocations [5, 6] [⟨1, "kA", 248, false, 0, 0⟩]).1
        = remainingCapacity [⟨1, "kA", 248, false, 0, 0⟩] ∧
      (runAllocations [5, 6] [⟨1, "kA", 248, false, 0, 0⟩]).2.1
        = [5, 6].length - remainingCapacity [⟨1, "kA", 248, false, 0, 0⟩] ∧
      sumCounts (runAllocations [5, 6] [⟨1, "kA", 248, false, 0, 0⟩]).2.2
        = sumCounts [⟨1, "kA", 248, false, 0, 0⟩]
            + remainingCapacity [⟨1, "kA", 248, false, 0, 0⟩] ∧
      ∀ i, ∀ k ∈ (runAllocations ([5, 6].take i) [⟨1, "kA", 248, false, 0, 0⟩]).2.2,
        k.requestCount ≤ MAX_REQUESTS) :=
  ⟨by decide, by decide, by decide,
   getNextApiKey_concurrent_exhaustion [5, 6] [⟨1, "kA", 248, false, 0, 0⟩]
     (by decide) (by decide) (by decide)⟩

/-! ## Quota gate theorems -/

/-- **C6**: a request presenting a revoked product key is rejected with
`RevokedCredential` (HTTP 403) and no Usage Log entry is written (the
finish hook logs only after `apiKeyData`/`userData` are assigned, which
happens after the revoked check). -/
theorem apiAuth_revoked_no_log (now downstreamStatus : Nat) (keys : List ApiKey)
    (logs : List ApiUsageLog) (req : Request) (tok : String) (key : ApiKey)
    (htok : extractBearerToken req.authorization = some tok)
    (hkey : lookupApiKey keys tok = some key)
    (hrev : key.status = ApiKeyStatus.revoked) :
    apiAuthMiddleware now keys logs req downstreamStatus =
      { outcome := .revokedCredential, statusCode := 403, logEntry := none,
        usageCounted := false, nextCalled := false } := by
  unfold apiAuthMiddleware
  simp only [htok, hkey, if_pos hrev]

/-- **C6 instance**: a concrete revoked key — 403, no log entry. -/
theorem apiAuth_revoked_no_log_witness :
    extractBearerToken (some "Bearer tokR") = some "tokR" ∧
    lookupApiKey [sampleRevokedKey] "tokR" = some sampleRevokedKey ∧
    sampleRevokedKey.status = ApiKeyStatus.revoked ∧
    apiAuthMiddleware 99 [sampleRevokedKey] []
        { authorization := some "Bearer tokR", method := "POST",
          originalUrl := "/v1/try-on" } 200 =
      { outcome := .revokedCredential, statusCode := 403, logEntry := none,
        usageCounted := false, nextCalled := false } :=
  ⟨by decide, by decide, by decide,
   apiAuth_revoked_no_log 99 200 [sampleRevokedKey] []
     { authorization := some "Bearer tokR", method := "POST",
       originalUrl := "/v1/try-on" } "tokR" sampleRevokedKey
     (by decide) (by decide) (by decide)⟩

/-- **C5**: a Usage Log entry is written exactly when authentication
resolved both a user and a product key (never for missing/invalid
credential — nor for revoked/suspended, which the code also rejects before
assigning `apiKeyData`/`userData`), and the entry's recorded status code
equals the final response status. -/
theorem apiAuth_logging_policy (now downstreamStatus : Nat) (keys : List ApiKey)
    (logs : List ApiUsageLog) (req : Request) :
    ((apiAuthMiddleware now keys logs req downstreamStatus).logEntry.isSome
        = resolvesUserAndKey keys req) ∧
    ((apiAuthMiddleware now keys logs req downstreamStatus).logEntry.all
        fun e => e.httpStatusCode
          == (apiAuthMiddleware now keys logs req downstreamStatus).statusCode) = true := by
  unfold apiAuthMiddleware resolvesUserAndKey
  cases htok : extractBearerToken req.authorization with
  | none => simp [htok]
  | some tok =>
    cases hkey : lookupApiKey keys tok with
    | none => simp [htok, hkey]
    | some key =>
      by_cases hrev : key.status = ApiKeyStatus.revoked
      · simp [htok, hkey, hrev]
      · by_cases hsusp : key.user.accountStatus = AccountStatus.suspended
        · simp [htok, hkey, hrev, hsusp]
        · simp only [htok, hkey, if_neg hrev, if_neg hsusp]
          refine ⟨?_, ?_⟩ <;> (split <;> simp [hrev, hsusp, mkUsageLog])

/-- **C8**: the gate evaluates the failure checks in the specified order
— missing/malformed header (401), unmatched hash (401), revoked key
(403), suspended account (403) — and on each such failure it performs no
quota count, writes no log entry, never calls `next()`, leaves the
credential pool untouched (no allocation) and makes no upstream call. -/
theorem apiAuth_short_circuit (now upstreamStatus : Nat) (keys : List ApiKey)
    (logs : List ApiUsageLog) (pool : List GeminiApiKey) (req : Request) :
    match specAuthFailure keys req with
    | some f =>
        (handleGatedRequest now keys logs pool req upstreamStatus).1.outcome = f ∧
        (handleGatedRequest now keys logs pool req upstreamStatus).1.statusCode
          = specFailureStatus f ∧
        (handleGatedRequest now keys logs pool req upstreamStatus).1.usageCounted = false ∧
        (handleGatedRequest now keys logs pool req upstreamStatus).1.logEntry = none ∧
        (handleGatedRequest now keys logs pool req upstreamStatus).1.nextCalled = false ∧
        (handleGatedRequest now keys logs pool req upstreamStatus).2.1 = pool ∧
        (handleGatedRequest now keys logs pool req upstreamStatus).2.2 = false
    | none => True := by
  unfold handleGatedRequest apiAuthMiddleware specAuthFailure
  cases htok : extractBearerToken req.authorization with
  | none => simp [htok, specFailureStatus]
  | some tok =>
    cases hkey : lookupApiKey keys tok with
    | none => simp [htok, hkey, specFailureStatus]
    | some key =>
      by_cases hrev : key.status = ApiKeyStatus.revoked
      · simp [htok, hkey, hrev, specFailureStatus]
      · by_cases hsusp : key.user.accountStatus = AccountStatus.suspended
        · simp [htok, hkey, hrev, hsusp, specFailureStatus]
        · simp [htok, hkey, hrev, hsusp]

/-- The quota count counts an appended matching entry, whatever its
status code: the filter looks only at user id and timestamp. -/
theorem usageCountOf_append_matching (logsPrior : List ApiUsageLog)
    (e : ApiUsageLog) (uid start : Nat) (hu : e.userId = uid)
    (hts : start ≤ e.requestTimestamp) :
    usageCountOf (logsPrior ++ [e]) uid start
      = usageCountOf logsPrior uid start + 1 := by
  unfold usageCountOf
  rw [List.filter_append, List.length_append]
  simp [hu, hts]

/-- **C2**: once a request is authenticated, the gate applies exactly the
specified quota policy — active subscription ⇒ plan's monthly limit over a
window starting at `currentPeriodStart`, otherwise the free-tier fallback
of 5 over a trailing 30-day window — counts the user's Usage Log entries
in the window, rejects with `QuotaExceeded` (429, reporting limit, used
and plan name) exactly when count ≥ limit and admits otherwise. -/
theorem apiAuth_quota_policy (now downstreamStatus : Nat) (keys : List ApiKey)
    (logs : List ApiUsageLog) (req : Request) (tok : String) (key : ApiKey)
    (htok : extractBearerToken req.authorization = some tok)
    (hkey : lookupApiKey keys tok = some key)
    (hrev : key.status ≠ ApiKeyStatus.revoked)
    (hsusp : key.user.accountStatus ≠ AccountStatus.suspended)
    (hpast : ∀ l ∈ logs, l.requestTimestamp ≤ now) :
    (apiAuthMiddleware now keys logs req downstreamStatus).outcome
      = (if specQuotaLimit key.user
            ≤ specWindowCount now (specWindowStart now key.user) key.userId logs
         then GateOutcome.quotaExceeded (specQuotaLimit key.user)
                (specWindowCount now (specWindowStart now key.user) key.userId logs)
                (reportedPlanName key.user)
         else GateOutcome.admitted) ∧
    (apiAuthMiddleware now keys logs req downstreamStatus).statusCode
      = (if specQuotaLimit key.user
            ≤ specWindowCount now (specWindowStart now key.user) key.userId logs
         then 429 else downstreamStatus) := by
  have hcount : usageCountOf logs key.userId (specWindowStart now key.user)
      = specWindowCount now (specWindowStart now key.user) key.userId logs := by
    unfold usageCountOf specWindowCount
    congr 1
    apply List.filter_congr
    intro l hl
    have hts : l.requestTimestamp ≤ now := hpast l hl
    simp [hts]
  have hlim : (match key.user.currentSubscription with
      | some s => if s.status = SubscriptionStatus.active
                  then (s.plan.requestLimitMonthly, s.currentPeriodStart)
                  else (FREE_TIER_LIMIT, now - thirtyDaysMs)
      | none => (FREE_TIER_LIMIT, now - thirtyDaysMs))
      = (specQuotaLimit key.user, specWindowStart now key.user) := by
    unfold specQuotaLimit specWindowStart
    cases key.user.currentSubscription with
    | none => rfl
    | some s =>
      by_cases hst : s.status = SubscriptionStatus.active
      · simp [hst]
      · simp [hst]
  unfold apiAuthMiddleware
  simp only [htok, hkey, if_neg hrev, if_neg hsusp, hlim]
  rw [hcount]
  constructor <;> split <;> rfl

/-- **C2 instance**: a free-tier user (no subscription) with an empty
ledger is admitted — limit 5, used 0. -/
theorem apiAuth_quota_policy_witness :
    extractBearerToken (some "Bearer tokF") = some "tokF" ∧
    lookupApiKey [sampleFreeKey] "tokF" = some sampleFreeKey ∧
    sampleFreeKey.status ≠ ApiKeyStatus.revoked ∧
    sampleFreeKey.user.accountStatus ≠ AccountStatus.suspended ∧
    ((apiAuthMiddleware 99 [sampleFreeKey] []
        { authorization := some "Bearer tokF", method := "POST",
          originalUrl := "/v1/try-on" } 200).outcome
      = (if specQuotaLimit sampleFreeKey.user
            ≤ specWindowCount 99 (specWindowStart 99 sampleFreeKey.user)
                sampleFreeKey.userId []
         then GateOutcome.quotaExceeded (specQuotaLimit sampleFreeKey.user)
                (specWindowCount 99 (specWindowStart 99 sampleFreeKey.user)
                  sampleFreeKey.userId [])
                (reportedPlanName sampleFreeKey.user)
         else GateOutcome.admitted) ∧
      (apiAuthMiddleware 99 [sampleFreeKey] []
          { authorization := some "Bearer tokF", method := "POST",
            originalUrl := "/v1/try-on" } 200).statusCode
        = (if specQuotaLimit sampleFreeKey.user
              ≤ specWindowCount 99 (specWindowStart 99 sampleFreeKey.user)
                  sampleFreeKey.userId []
           then 429 else 200)) :=
  ⟨by decide, by decide, by decide, by decide,
   apiAuth_quota_policy 99 200 [sampleFreeKey] []
     { authorization := some "Bearer tokF", method := "POST",
       originalUrl := "/v1/try-on" } "tokF" sampleFreeKey
     (by decide) (by decide) (by decide) (by decide)
     (by intro l hl; exact absurd hl (List.not_mem_nil l))⟩

/-- **C9**: a request rejected with `QuotaExceeded` (429) still produces a
Usage Log entry — the user and key were resolved before the quota check —
recorded with status 429; and since the quota count filters only by user
and timestamp, that entry is counted by any subsequent quota check whose
window contains it: rejected requests themselves consume quota. -/
theorem apiAuth_429_consumes_quota (now downstreamStatus : Nat)
    (keys : List ApiKey) (logs : List ApiUsageLog) (req : Request)
    (limit used : Nat) (planName : String)
    (h : (apiAuthMiddleware now keys logs req downstreamStatus).outcome
          = GateOutcome.quotaExceeded limit used planName) :
    (apiAuthMiddleware now keys logs req downstreamStatus).statusCode = 429 ∧
    match (apiAuthMiddleware now keys logs req downstreamStatus).logEntry with
    | some e =>
        e.httpStatusCode = 429 ∧
        ∀ start, start ≤ e.requestTimestamp →
          ∀ logsLater : List ApiUsageLog,
            usageCountOf (logsLater ++ [e]) e.userId start
              = usageCountOf logsLater e.userId start + 1
    | none => False := by
  cases htok : extractBearerToken req.authorization with
  | none =>
    unfold apiAuthMiddleware at h
    simp [htok] at h
  | some tok =>
    cases hkey : lookupApiKey keys tok with
    | none =>
      unfold apiAuthMiddleware at h
      simp [htok, hkey] at h
    | some key =>
      by_cases hrev : key.status = ApiKeyStatus.revoked
      · unfold apiAuthMiddleware at h
        simp [htok, hkey, hrev] at h
      · by_cases hsusp : key.user.accountStatus = AccountStatus.suspended
        · unfold apiAuthMiddleware at h
          simp [htok, hkey, hrev, hsusp] at h
        · unfold apiAuthMiddleware at h ⊢
          simp only [htok, hkey, if_neg hrev, if_neg hsusp] at h ⊢
          split at h
          · rename_i hq
            rw [if_pos hq]
            refine ⟨rfl, rfl, ?_⟩
            intro start hstart logsLater
            exact usageCountOf_append_matching logsLater _ _ start rfl hstart
          · simp at h

/-- **C9 instance**: an active subscriber on a plan with monthly limit 0
is rejected 429 on an empty ledger; the written 429 entry is counted by
the next quota check. -/
theorem apiAuth_429_consumes_quota_witness :
    (apiAuthMiddleware 99 [sampleQuotaKey] []
        { authorization := some "Bearer tokQ", method := "POST",
          originalUrl := "/v1/try-on" } 200).outcome
      = GateOutcome.quotaExceeded 0 0 "Pro" ∧
    ((apiAuthMiddleware 99 [sampleQuotaKey] []
        { authorization := some "Bearer tokQ", method := "POST",
          originalUrl := "/v1/try-on" } 200).statusCode = 429 ∧
      match (apiAuthMiddleware 99 [sampleQuotaKey] []
          { authorization := some "Bearer tokQ", method := "POST",
            originalUrl := "/v1/try-on" } 200).logEntry with
      | some e =>
          e.httpStatusCode = 429 ∧
          ∀ start, start ≤ e.requestTimestamp →
            ∀ logsLater : List ApiUsageLog,
              usageCountOf (logsLater ++ [e]) e.userId start
                = usageCountOf logsLater e.userId start + 1
      | none => False) :=
  ⟨by decide,
   apiAuth_429_consumes_quota 99 200 [sampleQuotaKey] []
     { authorization := some "Bearer tokQ", method := "POST",
       originalUrl := "/v1/try-on" } 0 0 "Pro" (by decide)⟩

/-! ## Product API key round-trip (C10) -/

theorem find?_append_of_none {α : Type} (p : α → Bool) :
    ∀ {l1 : List α} (l2 : List α), l1.find? p = none →
      (l1 ++ l2).find? p = l2.find? p := by
  intro l1
  induction l1 with
  | nil => intro l2 _; rfl
  | cons a as ih =>
    intro l2 h
    rw [List.find?_cons] at h
    cases hp : p a with
    | true => rw [hp] at h; cases h
    | false =>
      rw [hp] at h
      rw [List.cons_append, List.find?_cons, hp]
      exact ih l2 h

/-- The list endpoint's output is independent of every stored hash: the
`select` projection never reads `keyHash`. -/
theorem listApiKeys_hash_blind (f : ApiKey → String) (keys : List ApiKey)
    (uid : Nat) :
    listApiKeys (keys.map fun k => { k with keyHash := f k }) uid
      = listApiKeys keys uid := by
  unfold listApiKeys
  rw [List.filter_map, List.map_map]
  rfl

/-- **C10**: for a key created via `POST /api/keys`, hashing the plaintext
returned in the creation response equals the stored `keyHash`, and — given
the unique index on `keyHash` (no other row carries that hash) — the
gate's hashed lookup resolves exactly the created record; the creation
response carries only the plaintext plus safe metadata, and the list
endpoint's output is unchanged under arbitrary rewriting of every stored
hash, so no read endpoint returns the plaintext or the stored hash. -/
theorem apiKey_roundtrip (user : User) (name randomHex : String)
    (newId now : Nat) (keys : List ApiKey)
    (hfresh : ∀ k ∈ keys, k.keyHash ≠ hashApiKey (generateApiKey randomHex)) :
    hashApiKey (createApiKeyRoute user name randomHex newId now keys).2.apiKey
      = (savedApiKey user name randomHex newId now).keyHash ∧
    (createApiKeyRoute user name randomHex newId now keys).1
      = keys ++ [savedApiKey user name randomHex newId now] ∧
    lookupApiKey (createApiKeyRoute user name randomHex newId now keys).1
        (createApiKeyRoute user name randomHex newId now keys).2.apiKey
      = some (savedApiKey user name randomHex newId now) ∧
    (createApiKeyRoute user name randomHex newId now keys).2.keyDetails
      = { id := newId, name := name, keyPrefix := "vto_live", createdAt := now } ∧
    (∀ f : ApiKey → String, ∀ uid : Nat,
      listApiKeys
          (((createApiKeyRoute user name randomHex newId now keys).1).map
            fun k => { k with keyHash := f k }) uid
        = listApiKeys ((createApiKeyRoute user name randomHex newId now keys).1) uid) := by
  refine ⟨rfl, rfl, ?_, rfl, fun f uid => listApiKeys_hash_blind f _ uid⟩
  show lookupApiKey (keys ++ [savedApiKey user name randomHex newId now])
        (generateApiKey randomHex)
      = some (savedApiKey user name randomHex newId now)
  unfold lookupApiKey
  rw [find?_append_of_none]
  · rw [List.find?_cons]
    have : ((savedApiKey user name randomHex newId now).keyHash
        == hashApiKey (generateApiKey randomHex)) = true := by
      exact beq_self_eq_true _
    rw [this]
  · apply List.find?_eq_none.mpr
    intro k hk
    have := hfresh k hk
    simp [this]

/-- **C10 instance**: creating a key against an empty table — the lookup
of the returned plaintext resolves the stored record, and the listing
ignores hashes. -/
theorem apiKey_roundtrip_witness :
    (∀ k ∈ ([] : List ApiKey), k.keyHash ≠ hashApiKey (generateApiKey "r0")) ∧
    (hashApiKey (createApiKeyRoute sampleFreeUser "main" "r0" 1 5 []).2.apiKey
      = (savedApiKey sampleFreeUser "main" "r0" 1 5).keyHash ∧
    (createApiKeyRoute sampleFreeUser "main" "r0" 1 5 []).1
      = [] ++ [savedApiKey sampleFreeUser "main" "r0" 1 5] ∧
    lookupApiKey (createApiKeyRoute sampleFreeUser "main" "r0" 1 5 []).1
        (createApiKeyRoute sampleFreeUser "main" "r0" 1 5 []).2.apiKey
      = some (savedApiKey sampleFreeUser "main" "r0" 1 5) ∧
    (createApiKeyRoute sampleFreeUser "main" "r0" 1 5 []).2.keyDetails
      = { id := 1, name := "main", keyPrefix := "vto_live", createdAt := 5 } ∧
    (∀ f : ApiKey → String, ∀ uid : Nat,
      listApiKeys
          (((createApiKeyRoute sampleFreeUser "main" "r0" 1 5 []).1).map
            fun k => { k with keyHash := f k }) uid
        = listApiKeys ((createApiKeyRoute sampleFreeUser "main" "r0" 1 5 []).1) uid)) :=
  ⟨by intro k hk; exact absurd hk (List.not_mem_nil k),
   apiKey_roundtrip sampleFreeUser "main" "r0" 1 5 []
     (by intro k hk; exact absurd hk (List.not_mem_nil k))⟩

end VTryOn

